import Mathlib

/-! Shallow embedding of the AIND sign-language recognizer core:
`my_model_selectors.py` (ModelSelector, SelectorConstant, SelectorBIC,
SelectorDIC, SelectorCV) and `my_recognizer.py` (recognize).  Feature
frames are rows of rationals; GaussianHMM fitting and scoring and
`np.log` are black-box numerical routines, embedded as oracle fields of
a `Numerics` structure, so every theorem quantifies over all possible
numerical outcomes of the library calls.  A Python exception caught by
a bare `except` is `none`; a routine that can let an exception escape
is embedded with an `Option` result whose `none` is that escape. -/

/-- Feature matrix: the flattened frame rows of concatenated sequences
(`self.X` in `ModelSelector`). -/
abbrev Mat : Type := List (List ℚ)

/-- Per-sequence length list (`self.lengths`). -/
abbrev Lengths : Type := List Nat

/-- One FeatureSequence: the ordered frames of a single utterance. -/
abbrev FSeq : Type := List (List ℚ)

/-- Oracle for the black-box numerical library.
`fit n X lengths` embeds `GaussianHMM(n_components=n, n_iter=1000).fit(X, lengths)`
(the construction used at my_model_selectors.py lines 88, 125, 172 and 178,
which passes no `random_state`); `none` means fitting raised.
`score m X lengths` embeds `m.score(X, lengths)`; `none` means scoring raised.
`fitSeeded seed n X lengths` embeds the `base_model` construction
`GaussianHMM(n_components=n, covariance_type="diag", n_iter=1000, random_state=seed).fit(X, lengths)`
(lines 39-40). `ln N` embeds `np.log(N)` (line 93). -/
structure Numerics (Mo : Type) where
  fit : Nat → Mat → Lengths → Option Mo
  score : Mo → Mat → Lengths → Option ℚ
  fitSeeded : Nat → Nat → Mat → Lengths → Option Mo
  ln : Nat → ℚ

/-- The state a `ModelSelector` holds after `__init__` (lines 16-29):
`words` is `all_word_sequences` (an insertion-ordered dict, embedded as an
association list), `hwords` is `all_word_Xlengths`, `sequences` is
`words[this_word]`, `(X, lengths)` is `hwords[this_word]`, plus the
configuration fields. -/
structure SelCtx where
  words : List (String × List FSeq)
  hwords : List (String × (Mat × Lengths))
  sequences : List FSeq
  X : Mat
  lengths : Lengths
  thisWord : String
  nConstant : Nat
  minN : Nat
  maxN : Nat
  randomState : Nat

/-- The candidate sweep `range(self.min_n_components, self.max_n_components+1)`
(lines 86, 122, 164). -/
def nRange (ctx : SelCtx) : List Nat :=
  List.range' ctx.minN (ctx.maxN + 1 - ctx.minN)

/-- `ModelSelector.base_model` (lines 34-47): one seeded fit, `None` on any
exception. -/
def base_model {Mo : Type} (env : Numerics Mo) (ctx : SelCtx) (numStates : Nat) :
    Option Mo :=
  env.fitSeeded ctx.randomState numStates ctx.X ctx.lengths

/-- `SelectorConstant.select` (lines 55-61): `base_model(self.n_constant)`. -/
def selectConstant {Mo : Type} (env : Numerics Mo) (ctx : SelCtx) : Option Mo :=
  base_model env ctx ctx.nConstant

/-- One step of the best-score tracking loop shared by SelectorBIC
(lines 83-98, `better` is strictly-less) and SelectorDIC (lines 119-147,
`better` is strictly-greater).  The first component of the state is the
best score so far (`none` embeds the initial infinite value
`float('inf')` resp. `float('-inf')`, which every finite score beats);
the second is the best model so far.  A failed candidate (`none`) leaves
the state unchanged (the bare `except: pass`). -/
def sweepStep {α : Type} (better : ℚ → ℚ → Bool) (s : Option ℚ × Option α)
    (c : Option (α × ℚ)) : Option ℚ × Option α :=
  match c with
  | none => s
  | some (m, v) =>
    match s.1 with
    | none => (some v, some m)
    | some b => if better v b then (some v, some m) else s

/-- The whole tracking loop, from the initial `(±inf, None)` state. -/
def sweepRun {α : Type} (better : ℚ → ℚ → Bool) (cands : List (Option (α × ℚ))) :
    Option ℚ × Option α :=
  cands.foldl (sweepStep better) (none, none)

/-- Strict less-than on scores, as the Python `bic < best_bic` (line 94). -/
def ltB (a b : ℚ) : Bool := decide (a < b)

/-- Strict greater-than on scores, as the Python `dic > best_dic` (line 141). -/
def gtB (a b : ℚ) : Bool := decide (b < a)

/-- The body of one SelectorBIC sweep iteration (lines 87-93): fit, score,
`n_features = len(self.X[0])` (raises on empty `X`, hence `head?`),
`p = n_components**2 + 2*n_components*n_features - 1`, `N = len(self.X)`,
`bic = -2*logL + p*np.log(N)`.  `none` when any step raised. -/
def bicCandidate {Mo : Type} (env : Numerics Mo) (ctx : SelCtx) (n : Nat) :
    Option (Mo × ℚ) :=
  match env.fit n ctx.X ctx.lengths with
  | none => none
  | some model =>
    match env.score model ctx.X ctx.lengths with
    | none => none
    | some logL =>
      match ctx.X.head? with
      | none => none
      | some row =>
        some (model,
          -2 * logL +
            (((n : ℤ) ^ 2 + 2 * (n : ℤ) * (row.length : ℤ) - 1 : ℤ) : ℚ) *
              env.ln ctx.X.length)

/-- `SelectorBIC.select` (lines 71-99): sweep the candidate range tracking
the strictly smallest BIC, return the tracked model (`None` if every
candidate failed). -/
def selectBIC {Mo : Type} (env : Numerics Mo) (ctx : SelCtx) : Option Mo :=
  (sweepRun ltB ((nRange ctx).map (bicCandidate env ctx))).2

/-- Python dict lookup `d[k]` on an association list; `none` embeds the
`KeyError` escape. -/
def lookupA {β : Type} : List (String × β) → String → Option β
  | [], _ => none
  | p :: rest, k => if p.1 = k then some p.2 else lookupA rest k

/-- The `other_logL_sum` accumulation loop of SelectorDIC (lines 129-137):
iterate the keys of `self.words` in order, skip `self.this_word`, look the
word up in `self.hwords`, score the candidate model on that word's
concatenated features, and accumulate.  `none` when a lookup or a scoring
raised. -/
def dicOtherSum {Mo : Type} (env : Numerics Mo) (ctx : SelCtx) (model : Mo) :
    List (String × List FSeq) → ℚ → Option ℚ
  | [], acc => some acc
  | (w, _) :: rest, acc =>
    if w = ctx.thisWord then dicOtherSum env ctx model rest acc
    else
      (lookupA ctx.hwords w).bind fun p =>
        (env.score model p.1 p.2).bind fun l =>
          dicOtherSum env ctx model rest (acc + l)

/-- The body of one SelectorDIC sweep iteration (lines 124-139): fit, score
on the word's own data, sum the scores on every other word, then
`dic = logL - other_logL_sum/(M-1)` with `M = len(self.hwords)` (line 118).
When `M - 1 = 0` the Python division raises `ZeroDivisionError`, so the
candidate fails (`none`). -/
def dicCandidate {Mo : Type} (env : Numerics Mo) (ctx : SelCtx) (n : Nat) :
    Option (Mo × ℚ) :=
  (env.fit n ctx.X ctx.lengths).bind fun model =>
    (env.score model ctx.X ctx.lengths).bind fun logL =>
      (dicOtherSum env ctx model ctx.words 0).bind fun s =>
        if (ctx.hwords.length : ℤ) - 1 = 0 then none
        else some (model, logL - s / ((ctx.hwords.length : ℚ) - 1))

/-- `SelectorDIC.select` (lines 112-148): sweep the candidate range tracking
the strictly largest DIC, return the tracked model (`None` if every
candidate failed). -/
def selectDIC {Mo : Type} (env : Numerics Mo) (ctx : SelCtx) : Option Mo :=
  (sweepRun gtB ((nRange ctx).map (dicCandidate env ctx))).2

/-- sklearn `KFold(n_splits=k).split(range m)` without shuffling: `none`
embeds the documented `ValueError` that `KFold` raises at construction
when `n_splits` is at most 1; otherwise the folds are deterministic and
contiguous, the first `m % k` test folds of size `m / k + 1` and the rest
of size `m / k`, each paired with the sorted complement as training
indices. -/
def kfold (k m : Nat) : Option (List (List Nat × List Nat)) :=
  if k < 2 then none
  else
    some ((List.range k).map fun i =>
      let q := m / k
      let r := m % k
      let start := i * q + min i r
      let size := q + if i < r then 1 else 0
      ((List.range m).filter fun j => decide (j < start) || decide (start + size ≤ j),
        List.range' start size))

/-- Modelled from the spec: `combine_sequences` from `asl_utils`, which is
not under `src/`.  Per the spec's ConcatenatedFeatures invariant, it
concatenates the selected sequences of a word into a flattened feature
matrix paired with the per-sequence length list, the lengths in the same
order as the selected sequence indices. -/
def combine_sequences (idx : List Nat) (seqs : List FSeq) : Mat × Lengths :=
  let sel := idx.filterMap fun i => seqs[i]?
  (sel.flatten, sel.map List.length)

/-- The body of one cross-validation fold (lines 170-173): concatenate the
training and the held-out sequences, fit on the training fold, score on the
held-out fold.  `none` when fitting or scoring raised. -/
def foldLogL {Mo : Type} (env : Numerics Mo) (ctx : SelCtx) (n : Nat)
    (fold : List Nat × List Nat) : Option ℚ :=
  let tr := combine_sequences fold.1 ctx.sequences
  let te := combine_sequences fold.2 ctx.sequences
  match env.fit n tr.1 tr.2 with
  | none => none
  | some model => env.score model te.1 te.2

/-- The per-candidate average of SelectorCV (lines 166-175):
`split_n = min(len(self.sequences), 3)`, build the folds, accumulate the
per-fold log-likelihoods, and divide by `split_n`.  The `try` at line 165
wraps this whole block, so a failure anywhere (fold construction included)
makes the entire candidate fail (`none`). -/
def cvAvg {Mo : Type} (env : Numerics Mo) (ctx : SelCtx) (n : Nat) : Option ℚ :=
  let k := min ctx.sequences.length 3
  match kfold k ctx.sequences.length with
  | none => none
  | some folds =>
    match folds.mapM (foldLogL env ctx n) with
    | none => none
    | some ls => some (ls.sum / (k : ℚ))

/-- The Python comparison `logL_avg > best_cv` where `best_cv` starts at
`float('-inf')` (embedded as `none`), line 176. -/
def pyGtInit (a : ℚ) (best : Option ℚ) : Bool :=
  match best with
  | none => true
  | some b => decide (b < a)

/-- One SelectorCV sweep iteration (lines 164-180).  When the candidate
average beats the best so far, Python first assigns `best_cv = logL_avg`
and only then refits on the full word data (line 178); if that refit
raises, the `except` catches it after `best_cv` was already overwritten,
so the previous best model is kept under the new best score. -/
def cvStep {Mo : Type} (env : Numerics Mo) (ctx : SelCtx)
    (s : Option ℚ × Option Mo) (n : Nat) : Option ℚ × Option Mo :=
  match cvAvg env ctx n with
  | none => s
  | some a =>
    if pyGtInit a s.1 then
      (some a,
        match env.fit n ctx.X ctx.lengths with
        | none => s.2
        | some m => some m)
    else s

/-- `SelectorCV.select` (lines 157-181). -/
def selectCV {Mo : Type} (env : Numerics Mo) (ctx : SelCtx) : Option Mo :=
  ((nRange ctx).foldl (cvStep env ctx) (none, none)).2

/-- The per-item scoring loop of `recognize` (my_recognizer.py lines 26-34):
try every word model in dict order on the item's features, keep the
successes in order, silently drop the words whose scoring raised. -/
def scoreItem {Mo : Type} (env : Numerics Mo) (models : List (String × Mo))
    (item : Mat × Lengths) : List (String × ℚ) :=
  models.filterMap fun wm => (env.score wm.2 item.1 item.2).map fun l => (wm.1, l)

/-- One comparison step of Python `max(p.keys(), key=lambda x: p[x])`:
the running maximum is replaced only on strictly greater key value, so the
first maximum encountered wins ties. -/
def pyMaxStep (acc : Option (String × ℚ)) (kv : String × ℚ) :
    Option (String × ℚ) :=
  match acc with
  | none => some kv
  | some b => if b.2 < kv.2 then some kv else some b

/-- Python `max(p.keys(), key=lambda x: p[x])` over one likelihood table
(line 35); `none` embeds the `ValueError` that `max` raises on an empty
table. -/
def pyMaxAssoc (p : List (String × ℚ)) : Option String :=
  (p.foldl pyMaxStep none).map Prod.fst

/-- The guess comprehension `[max(p.keys(), key=...) for p in probabilities]`
(line 35): the first empty table makes the whole comprehension raise. -/
def guessesOf : List (List (String × ℚ)) → Option (List String)
  | [] => some []
  | p :: ps =>
    match pyMaxAssoc p, guessesOf ps with
    | some g, some gs => some (g :: gs)
    | _, _ => none

/-- `recognize` (my_recognizer.py lines 5-36).  The result is `none` when
the guess computation raises an uncaught `ValueError` (which happens
exactly when some item's likelihood table ends up empty); otherwise it is
the pair (probabilities, guesses). -/
def recognize {Mo : Type} (env : Numerics Mo) (models : List (String × Mo))
    (testSet : List (Mat × Lengths)) :
    Option (List (List (String × ℚ)) × List String) :=
  let probabilities := testSet.map (scoreItem env models)
  match guessesOf probabilities with
  | none => none
  | some gs => some (probabilities, gs)

/-- Oracle for the numerics when the global numpy random generator is made
explicit.  `fitG rng n X lengths` embeds the unseeded
`GaussianHMM(n_components=n, n_iter=1000).fit(X, lengths)` call of the
BIC/DIC/CV selectors: because no `random_state` is passed, the fit draws
its k-means initialisation from the global generator, consuming and
advancing its state (returned alongside the result). -/
structure RngNumerics (Mo : Type) where
  fitG : Nat → Nat → Mat → Lengths → Option Mo × Nat
  score : Mo → Mat → Lengths → Option ℚ
  ln : Nat → ℚ

/-- One SelectorBIC sweep iteration with the global random generator made
explicit (same control flow as `bicCandidate` plus `sweepStep`, threading
the generator state through the unseeded fit of line 88). -/
def bicStepG {Mo : Type} (env : RngNumerics Mo) (ctx : SelCtx)
    (s : Nat × (Option ℚ × Option Mo)) (n : Nat) : Nat × (Option ℚ × Option Mo) :=
  let fr := env.fitG s.1 n ctx.X ctx.lengths
  match fr.1 with
  | none => (fr.2, s.2)
  | some model =>
    match env.score model ctx.X ctx.lengths with
    | none => (fr.2, s.2)
    | some logL =>
      match ctx.X.head? with
      | none => (fr.2, s.2)
      | some row =>
        (fr.2, sweepStep ltB s.2 (some (model,
          -2 * logL +
            (((n : ℤ) ^ 2 + 2 * (n : ℤ) * (row.length : ℤ) - 1 : ℤ) : ℚ) *
              env.ln ctx.X.length)))

/-- `SelectorBIC.select` with the global random generator made explicit:
the call consumes the generator state it starts from and leaves the
advanced state behind for the next call. -/
def selectBIC_g {Mo : Type} (env : RngNumerics Mo) (ctx : SelCtx) (rng : Nat) :
    Option Mo × Nat :=
  let r := (nRange ctx).foldl (bicStepG env ctx) (rng, (none, none))
  (r.2.2, r.1)

/-- Concrete oracle for witnesses: every fit returns the requested state
count as the model, every score returns the model id, `ln` is constantly 1. -/
def envW : Numerics Nat :=
  ⟨fun n _ _ => some n, fun m _ _ => some (m : ℚ), fun _ n _ _ => some n,
    fun _ => 1⟩

/-- Concrete selector context for witnesses: word "A" with two one-frame
sequences, a second word "B" in the shared maps, candidate range 2..3. -/
def ctxW : SelCtx :=
  ⟨[("A", [[[0]], [[1]]]), ("B", [[[2]]])],
    [("A", ([[0], [1]], [1, 1])), ("B", ([[2]], [1]))],
    [[[0]], [[1]]], [[0], [1]], [1, 1], "A", 3, 2, 3, 14⟩

/-- Concrete oracle whose fit fails at state count 3 and whose score fails
on the model 99, for the failure-recovery witness. -/
def envF : Numerics Nat :=
  ⟨fun n _ _ => if n = 3 then none else some n,
    fun m _ _ => if m = 99 then none else some (m : ℚ),
    fun _ n _ _ => some n, fun _ => 1⟩

/-- Concrete oracle whose fit fails exactly on the training matrix of the
middle cross-validation fold of `ctx8`. -/
def env8 : Numerics Nat :=
  ⟨fun n X _ => if X = [[0], [2]] then none else some n,
    fun m _ _ => some (m : ℚ), fun _ n _ _ => some n, fun _ => 1⟩

/-- Concrete context with three one-frame sequences and the single
candidate state count 2, for the fold-failure counterexample. -/
def ctx8 : SelCtx :=
  ⟨[("A", [[[0]], [[1]], [[2]]])], [("A", ([[0], [1], [2]], [1, 1, 1]))],
    [[[0]], [[1]], [[2]]], [[0], [1], [2]], [1, 1, 1], "A", 3, 2, 2, 14⟩

/-- Concrete context whose word has exactly one sequence and whose shared
maps hold only that word. -/
def ctx9 : SelCtx :=
  ⟨[("A", [[[0]]])], [("A", ([[0]], [1]))], [[[0]]], [[0]], [1], "A", 3, 2, 3, 14⟩

/-- Concrete oracle whose scoring fails exactly on the feature matrix
`[[5]]`, for the empty-table counterexample. -/
def env5 : Numerics Nat :=
  ⟨fun n _ _ => some n,
    fun m X _ => if X = [[5]] then none else some (m : ℚ),
    fun _ n _ _ => some n, fun _ => 1⟩

/-- Concrete oracle whose scoring always fails. -/
def env1 : Numerics Nat :=
  ⟨fun n _ _ => some n, fun _ _ _ => none, fun _ n _ _ => some n, fun _ => 1⟩

/-- Concrete oracle whose full-data refit fails at state count 3: fitting
a two-row matrix (the full data of `ctxW`) at n = 3 raises, every other
fit returns `10*n + rows`. -/
def envR : Numerics Nat :=
  ⟨fun n X _ => if n = 3 ∧ X.length = 2 then none else some (10 * n + X.length),
    fun m _ _ => some (m : ℚ), fun _ n _ _ => some n, fun _ => 1⟩

/-- Concrete explicit-generator oracle: the fit returns the current
generator state as the model and advances the state. -/
def envG : RngNumerics Nat :=
  ⟨fun st _ _ _ => (some st, st + 1), fun m _ _ => some (m : ℚ), fun _ => 1⟩

/-- Concrete word-model table for the recognizer witness. -/
def modelsW : List (String × Nat) := [("A", 5), ("B", 7)]

/-- Concrete test set for the recognizer witness. -/
def testW : List (Mat × Lengths) := [([[0]], [1])]

/-- Expected probabilities output for the recognizer witness. -/
def probsW : List (List (String × ℚ)) := [[("A", 5), ("B", 7)]]

/-- Expected guesses output for the recognizer witness. -/
def guessesW : List String := ["B"]

/-- A fold whose step ignores every element of the list leaves the initial
state unchanged. -/
theorem foldl_id_of_skip {σ α : Type} (g : σ → α → σ) :
    ∀ (l : List α) (s : σ), (∀ a ∈ l, ∀ t, g t a = t) → l.foldl g s = s := by
  intro l
  induction l with
  | nil => intro s _; rfl
  | cons a l ih =>
    intro s h
    rw [List.foldl_cons, h a (List.mem_cons_self a l) s]
    exact ih s fun b hb t => h b (List.mem_cons_of_mem a hb) t

/-- Removing one element that the fold step ignores does not change the
fold. -/
theorem foldl_middle_skip {σ α : Type} (g : σ → α → σ) (a : α)
    (hskip : ∀ t, g t a = t) (l₁ l₂ : List α) (s : σ) :
    (l₁ ++ a :: l₂).foldl g s = (l₁ ++ l₂).foldl g s := by
  rw [List.foldl_append, List.foldl_append, List.foldl_cons, hskip]

/-- Starting the sweep from a finite best score, it ends at that score or
at a strictly better one. -/
theorem sweep_fst_mono {α : Type} (better : ℚ → ℚ → Bool)
    (htr : ∀ a b c, better a b = true → better b c = true → better a c = true) :
    ∀ (cands : List (Option (α × ℚ))) (s : Option ℚ × Option α) (b : ℚ),
      s.1 = some b →
      ∃ b', (cands.foldl (sweepStep better) s).1 = some b' ∧
        (b' = b ∨ better b' b = true) := by
  intro cands
  induction cands with
  | nil => intro s b hs; exact ⟨b, hs, Or.inl rfl⟩
  | cons c cs ih =>
    intro s b hs
    obtain ⟨s1, s2⟩ := s
    replace hs : s1 = some b := hs
    subst hs
    cases c with
    | none =>
      rw [List.foldl_cons]
      exact ih _ b rfl
    | some mv =>
      obtain ⟨m, v⟩ := mv
      rw [List.foldl_cons]
      by_cases hvb : better v b = true
      · have hstep : sweepStep better (some b, s2) (some (m, v)) = (some v, some m) := by
          simp [sweepStep, hvb]
        rw [hstep]
        obtain ⟨b', hb', hor⟩ := ih (some v, some m) v rfl
        refine ⟨b', hb', Or.inr ?_⟩
        rcases hor with h | h
        · exact h ▸ hvb
        · exact htr b' v b h hvb
      · have hstep : sweepStep better (some b, s2) (some (m, v)) = (some b, s2) := by
          simp [sweepStep, hvb]
        rw [hstep]
        exact ih (some b, s2) b rfl

/-- From a state whose best score already dominates `v`, the final best
score of the sweep still dominates `v`. -/
theorem sweep_dom_from {α : Type} (better : ℚ → ℚ → Bool)
    (htr : ∀ a b c, better a b = true → better b c = true → better a c = true)
    (hirr : ∀ a, better a a = false)
    (cs : List (Option (α × ℚ))) (s2 : Option α) (v b0 : ℚ)
    (h0 : v = b0 ∨ better v b0 = false) :
    ∃ b', (cs.foldl (sweepStep better) (some b0, s2)).1 = some b' ∧
      better v b' = false := by
  obtain ⟨b', hb', hor⟩ := sweep_fst_mono better htr cs (some b0, s2) b0 rfl
  refine ⟨b', hb', ?_⟩
  by_contra hx
  rw [Bool.not_eq_false] at hx
  rcases hor with hb | hb
  · subst hb
    rcases h0 with h | h
    · subst h; rw [hirr] at hx; exact Bool.false_ne_true hx
    · rw [h] at hx; exact Bool.false_ne_true hx
  · have hvb0 : better v b0 = true := htr v b' b0 hx hb
    rcases h0 with h | h
    · subst h; rw [hirr] at hvb0; exact Bool.false_ne_true hvb0
    · rw [h] at hvb0; exact Bool.false_ne_true hvb0

/-- Every successful candidate of the sweep is dominated by the final best
score. -/
theorem sweep_dom {α : Type} (better : ℚ → ℚ → Bool)
    (htr : ∀ a b c, better a b = true → better b c = true → better a c = true)
    (hirr : ∀ a, better a a = false) :
    ∀ (cands : List (Option (α × ℚ))) (s : Option ℚ × Option α) (m : α) (v : ℚ),
      some (m, v) ∈ cands →
      ∃ b', (cands.foldl (sweepStep better) s).1 = some b' ∧
        better v b' = false := by
  intro cands
  induction cands with
  | nil => intro s m v h; exact absurd h (List.not_mem_nil _)
  | cons c cs ih =>
    intro s m v hmem
    rw [List.foldl_cons]
    rcases List.mem_cons.mp hmem with hc | hcs
    · subst hc
      obtain ⟨s1, s2⟩ := s
      cases s1 with
      | none =>
        exact sweep_dom_from better htr hirr cs (some m) v v (Or.inl rfl)
      | some b =>
        by_cases hvb : better v b = true
        · have hstep : sweepStep better (some b, s2) (some (m, v)) = (some v, some m) := by
            simp [sweepStep, hvb]
          rw [hstep]
          exact sweep_dom_from better htr hirr cs (some m) v v (Or.inl rfl)
        · have hstep : sweepStep better (some b, s2) (some (m, v)) = (some b, s2) := by
            simp [sweepStep, hvb]
          rw [hstep]
          have hvb' : better v b = false := by
            cases hx : better v b
            · rfl
            · exact absurd hx hvb
          exact sweep_dom_from better htr hirr cs s2 v b (Or.inr hvb')
    · exact ih (sweepStep better s c) m v hcs

/-- The final state of the sweep is either the initial state or exactly the
score/model pair of one of the successful candidates. -/
theorem sweep_prov {α : Type} (better : ℚ → ℚ → Bool) :
    ∀ (cands : List (Option (α × ℚ))) (s : Option ℚ × Option α),
      cands.foldl (sweepStep better) s = s ∨
        ∃ m v, some (m, v) ∈ cands ∧
          cands.foldl (sweepStep better) s = (some v, some m) := by
  intro cands
  induction cands with
  | nil => intro s; exact Or.inl rfl
  | cons c cs ih =>
    intro s
    rw [List.foldl_cons]
    rcases ih (sweepStep better s c) with h | ⟨m, v, hm, hr⟩
    · cases c with
      | none => exact Or.inl h
      | some mv =>
        obtain ⟨m, v⟩ := mv
        obtain ⟨s1, s2⟩ := s
        cases s1 with
        | none =>
          exact Or.inr ⟨m, v, List.mem_cons_self _ _, h⟩
        | some b =>
          by_cases hvb : better v b = true
          · refine Or.inr ⟨m, v, List.mem_cons_self _ _, ?_⟩
            have hstep : sweepStep better (some b, s2) (some (m, v)) = (some v, some m) := by
              simp [sweepStep, hvb]
            rw [hstep] at h ⊢
            exact h
          · left
            have hstep : sweepStep better (some b, s2) (some (m, v)) = (some b, s2) := by
              simp [sweepStep, hvb]
            rw [hstep] at h ⊢
            exact h
    · exact Or.inr ⟨m, v, List.mem_cons_of_mem _ hm, hr⟩

/-- Transitivity of the strict BIC comparison. -/
theorem ltB_trans : ∀ a b c : ℚ, ltB a b = true → ltB b c = true → ltB a c = true := by
  intro a b c hab hbc
  simp only [ltB, decide_eq_true_eq] at hab hbc ⊢
  exact lt_trans hab hbc

/-- Irreflexivity of the strict BIC comparison. -/
theorem ltB_irrefl : ∀ a : ℚ, ltB a a = false := by
  intro a; simp [ltB]

/-- Transitivity of the strict DIC comparison. -/
theorem gtB_trans : ∀ a b c : ℚ, gtB a b = true → gtB b c = true → gtB a c = true := by
  intro a b c hab hbc
  simp only [gtB, decide_eq_true_eq] at hab hbc ⊢
  exact lt_trans hbc hab

/-- Irreflexivity of the strict DIC comparison. -/
theorem gtB_irrefl : ∀ a : ℚ, gtB a a = false := by
  intro a; simp [gtB]

/-- Specification of the shared best-candidate sweep: if every candidate
fails the result is `none`, and a returned model comes from a successful
candidate that no other successful candidate strictly beats. -/
theorem sweepSelect_spec {Mo : Type} (better : ℚ → ℚ → Bool)
    (htr : ∀ a b c, better a b = true → better b c = true → better a c = true)
    (hirr : ∀ a, better a a = false)
    (cand : Nat → Option (Mo × ℚ)) (range : List Nat) :
    ((∀ n ∈ range, cand n = none) → (sweepRun better (range.map cand)).2 = none) ∧
    (∀ m, (sweepRun better (range.map cand)).2 = some m →
      ∃ n ∈ range, ∃ b, cand n = some (m, b) ∧
        ∀ n' ∈ range, ∀ m' b', cand n' = some (m', b') → better b' b = false) := by
  constructor
  · intro h
    have hskip : ∀ c ∈ range.map cand, ∀ t, sweepStep better t c = t := by
      intro c hc t
      obtain ⟨n, hn, hcn⟩ := List.mem_map.mp hc
      rw [← hcn, h n hn]
      rfl
    unfold sweepRun
    rw [foldl_id_of_skip (sweepStep better) (range.map cand) (none, none) hskip]
  · intro m hm
    unfold sweepRun at hm
    rcases sweep_prov better (range.map cand) (none, none) with h | ⟨m0, v, hmem, hr⟩
    · rw [h] at hm; cases hm
    · rw [hr] at hm
      have hm0 : m0 = m := Option.some.inj hm
      subst hm0
      obtain ⟨n, hn, hcn⟩ := List.mem_map.mp hmem
      refine ⟨n, hn, v, hcn, ?_⟩
      intro n' hn' m' b' hc'
      obtain ⟨b'', hb'', hfalse⟩ :=
        sweep_dom better htr hirr (range.map cand) (none, none) m' b'
          (List.mem_map.mpr ⟨n', hn', hc'⟩)
      rw [hr] at hb''
      have hvb : v = b'' := Option.some.inj hb''
      rw [hvb]
      exact hfalse

/-- Claim C2: for every word context and oracle, SelectorBIC computes
`BIC(n) = -2*logL + (n^2 + 2*n*d - 1)*ln N` for each candidate that fits
and scores successfully (`d` the first row's length, `N` the row count),
returns `none` when every candidate fails, and any returned model comes
from a successful candidate whose BIC is at most the BIC of every other
successful candidate. -/
theorem selectBIC_minimal {Mo : Type} (env : Numerics Mo) (ctx : SelCtx) :
    (∀ n model logL row,
        env.fit n ctx.X ctx.lengths = some model →
        env.score model ctx.X ctx.lengths = some logL →
        ctx.X.head? = some row →
        bicCandidate env ctx n =
          some (model,
            -2 * logL +
              (((n : ℤ) ^ 2 + 2 * (n : ℤ) * (row.length : ℤ) - 1 : ℤ) : ℚ) *
                env.ln ctx.X.length))
    ∧ ((∀ n ∈ nRange ctx, bicCandidate env ctx n = none) → selectBIC env ctx = none)
    ∧ (∀ m, selectBIC env ctx = some m →
        ∃ n ∈ nRange ctx, ∃ b, bicCandidate env ctx n = some (m, b) ∧
          ∀ n' ∈ nRange ctx, ∀ m' b', bicCandidate env ctx n' = some (m', b') →
            b ≤ b') := by
  have hs := sweepSelect_spec ltB ltB_trans ltB_irrefl (bicCandidate env ctx) (nRange ctx)
  refine ⟨?_, hs.1, ?_⟩
  · intro n model logL row hf hsc hh
    simp [bicCandidate, hf, hsc, hh]
  · intro m hm
    obtain ⟨n, hn, b, hcn, hmin⟩ := hs.2 m hm
    refine ⟨n, hn, b, hcn, ?_⟩
    intro n' hn' m' b' hc'
    have hfalse := hmin n' hn' m' b' hc'
    simp only [ltB, decide_eq_false_iff_not] at hfalse
    exact le_of_not_lt hfalse

/-- Witness for C2: on the concrete oracle `envW` and context `ctxW` the
selector returns the model of state count 2, and its BIC is minimal. -/
theorem selectBIC_minimal_witness :
    ∃ n ∈ nRange ctxW, ∃ b, bicCandidate envW ctxW n = some (2, b) ∧
      ∀ n' ∈ nRange ctxW, ∀ m' b', bicCandidate envW ctxW n' = some (m', b') →
        b ≤ b' :=
  (selectBIC_minimal envW ctxW).2.2 2
    (by norm_num [selectBIC, sweepRun, sweepStep, nRange, bicCandidate, ltB, envW,
      ctxW, List.range'])

/-- Claim C3: for every word context and oracle, SelectorDIC computes
`DIC(n) = logL_self - (sum of other-word scores)/(M - 1)` with
`M = len(hwords)` for each candidate whose fit and every score succeed
(when `M = 1` the division raises and the candidate fails), returns `none`
when every candidate fails, and any returned model comes from a successful
candidate whose DIC is at least the DIC of every other successful
candidate. -/
theorem selectDIC_maximal {Mo : Type} (env : Numerics Mo) (ctx : SelCtx) :
    (∀ n model logL s,
        env.fit n ctx.X ctx.lengths = some model →
        env.score model ctx.X ctx.lengths = some logL →
        dicOtherSum env ctx model ctx.words 0 = some s →
        ctx.hwords.length ≠ 1 →
        dicCandidate env ctx n =
          some (model, logL - s / ((ctx.hwords.length : ℚ) - 1)))
    ∧ ((∀ n ∈ nRange ctx, dicCandidate env ctx n = none) → selectDIC env ctx = none)
    ∧ (∀ m, selectDIC env ctx = some m →
        ∃ n ∈ nRange ctx, ∃ b, dicCandidate env ctx n = some (m, b) ∧
          ∀ n' ∈ nRange ctx, ∀ m' b', dicCandidate env ctx n' = some (m', b') →
            b' ≤ b) := by
  have hs := sweepSelect_spec gtB gtB_trans gtB_irrefl (dicCandidate env ctx) (nRange ctx)
  refine ⟨?_, hs.1, ?_⟩
  · intro n model logL s hf hsc hsum hne
    have hnc : ¬ ((ctx.hwords.length : ℤ) - 1 = 0) := by
      rw [sub_eq_zero, Nat.cast_eq_one]
      exact hne
    simp [dicCandidate, hf, hsc, hsum, hnc]
  · intro m hm
    obtain ⟨n, hn, b, hcn, hmax⟩ := hs.2 m hm
    refine ⟨n, hn, b, hcn, ?_⟩
    intro n' hn' m' b' hc'
    have hfalse := hmax n' hn' m' b' hc'
    simp only [gtB, decide_eq_false_iff_not] at hfalse
    exact le_of_not_lt hfalse

/-- Witness for C3: on the concrete oracle `envW` and context `ctxW` the
selector returns the model of state count 2, and its DIC is maximal. -/
theorem selectDIC_maximal_witness :
    ∃ n ∈ nRange ctxW, ∃ b, dicCandidate envW ctxW n = some (2, b) ∧
      ∀ n' ∈ nRange ctxW, ∀ m' b', dicCandidate envW ctxW n' = some (m', b') →
        b' ≤ b :=
  (selectDIC_maximal envW ctxW).2.2 2 (by
    have hr : nRange ctxW = [2, 3] := by decide
    have hBA : ("B" : String) ≠ "A" := by decide
    have hAB : ("A" : String) ≠ "B" := by decide
    have h2 : dicCandidate envW ctxW 2 = some (2, 0) := by
      norm_num [dicCandidate, dicOtherSum, lookupA, envW, ctxW, hBA, hAB]
    have h3 : dicCandidate envW ctxW 3 = some (3, 0) := by
      norm_num [dicCandidate, dicOtherSum, lookupA, envW, ctxW, hBA, hAB]
    norm_num [selectDIC, sweepRun, hr, h2, h3, sweepStep, gtB])

/-- Claim C6: SelectorConstant performs exactly the single seeded fit of
`base_model` at `n_constant` states, returns that model when the fit
succeeds, and returns `none` exactly when that single fit fails. -/
theorem selectConstant_spec {Mo : Type} (env : Numerics Mo) (ctx : SelCtx) :
    selectConstant env ctx = base_model env ctx ctx.nConstant ∧
    (∀ m, selectConstant env ctx = some m →
      env.fitSeeded ctx.randomState ctx.nConstant ctx.X ctx.lengths = some m) ∧
    (selectConstant env ctx = none ↔
      env.fitSeeded ctx.randomState ctx.nConstant ctx.X ctx.lengths = none) :=
  ⟨rfl, fun _ hm => hm, Iff.rfl⟩

/-- Witness for C6: on the concrete oracle `envW` and context `ctxW` the
returned model is the one fitted at `n_constant = 3`. -/
theorem selectConstant_spec_witness :
    envW.fitSeeded ctxW.randomState ctxW.nConstant ctxW.X ctxW.lengths = some 3 :=
  (selectConstant_spec envW ctxW).2.1 3 (by decide)

/-- Any model held in the SelectorCV tracking state was produced by a fit
on the full word data `(ctx.X, ctx.lengths)` at one of the swept state
counts (the only assignment to `best_model` is the line-178 full-data
refit). -/
theorem cvFold_prov {Mo : Type} (env : Numerics Mo) (ctx : SelCtx) :
    ∀ (l : List Nat) (s : Option ℚ × Option Mo),
      (l.foldl (cvStep env ctx) s).2 = s.2 ∨
        ∃ n ∈ l, ∃ m, env.fit n ctx.X ctx.lengths = some m ∧
          (l.foldl (cvStep env ctx) s).2 = some m := by
  intro l
  induction l with
  | nil => intro s; exact Or.inl rfl
  | cons n l ih =>
    intro s
    rw [List.foldl_cons]
    rcases ih (cvStep env ctx s n) with h | ⟨n', hn', m, hm, hr⟩
    · cases ha : cvAvg env ctx n with
      | none =>
        have hstep : cvStep env ctx s n = s := by
          unfold cvStep; rw [ha]
        left
        rw [hstep] at h ⊢
        exact h
      | some a =>
        by_cases hgt : pyGtInit a s.1 = true
        · cases hfit : env.fit n ctx.X ctx.lengths with
          | none =>
            have hstep : cvStep env ctx s n = (some a, s.2) := by
              unfold cvStep; rw [ha, hfit]; simp [hgt]
            left
            rw [hstep] at h ⊢
            exact h
          | some m =>
            have hstep : cvStep env ctx s n = (some a, some m) := by
              unfold cvStep; rw [ha, hfit]; simp [hgt]
            right
            refine ⟨n, List.mem_cons_self _ _, m, hfit, ?_⟩
            rw [hstep] at h ⊢
            exact h
        · have hstep : cvStep env ctx s n = s := by
            unfold cvStep; rw [ha]; simp [hgt]
          left
          rw [hstep] at h ⊢
          exact h
    · exact Or.inr ⟨n', List.mem_cons_of_mem _ hn', m, hm, hr⟩

/-- When the full-data refit succeeds for every candidate whose fold
average was computed, the SelectorCV loop coincides with the generic
best-score sweep over the pairs (full-data model, fold average). -/
theorem cvFold_eq_sweep {Mo : Type} (env : Numerics Mo) (ctx : SelCtx) :
    ∀ (l : List Nat) (s : Option ℚ × Option Mo),
      (∀ n ∈ l, (cvAvg env ctx n).isSome → (env.fit n ctx.X ctx.lengths).isSome) →
      l.foldl (cvStep env ctx) s =
        (l.map fun n => (cvAvg env ctx n).bind fun a =>
          (env.fit n ctx.X ctx.lengths).map fun m => (m, a)).foldl (sweepStep gtB) s := by
  intro l
  induction l with
  | nil => intro s _; rfl
  | cons n l ih =>
    intro s h
    rw [List.map_cons, List.foldl_cons, List.foldl_cons]
    have hstep : cvStep env ctx s n =
        sweepStep gtB s ((cvAvg env ctx n).bind fun a =>
          (env.fit n ctx.X ctx.lengths).map fun m => (m, a)) := by
      cases ha : cvAvg env ctx n with
      | none =>
        unfold cvStep
        rw [ha]
        rfl
      | some a =>
        have hf : (env.fit n ctx.X ctx.lengths).isSome :=
          h n (List.mem_cons_self _ _) (by rw [ha]; rfl)
        cases hfit : env.fit n ctx.X ctx.lengths with
        | none => rw [hfit] at hf; cases hf
        | some m =>
          unfold cvStep
          rw [ha, hfit]
          obtain ⟨s1, s2⟩ := s
          cases s1 with
          | none => rfl
          | some b => rfl
    rw [hstep]
    exact ih _ fun n' hn' => h n' (List.mem_cons_of_mem _ hn')

/-- Claim C4: any model SelectorCV returns was fitted on the FULL word
data at one of the swept candidate state counts, never on a fold's
training subset; and provided the full-data refit succeeds for every
candidate whose fold average was computed, the returned model is fitted
at a winning candidate, one whose fold average is at least the fold
average of every other successful candidate. -/
theorem selectCV_full_data {Mo : Type} (env : Numerics Mo) (ctx : SelCtx) :
    (∀ m, selectCV env ctx = some m →
      ∃ n ∈ nRange ctx, env.fit n ctx.X ctx.lengths = some m) ∧
    ((∀ n ∈ nRange ctx, (cvAvg env ctx n).isSome →
        (env.fit n ctx.X ctx.lengths).isSome) →
      ∀ m, selectCV env ctx = some m →
        ∃ n ∈ nRange ctx, ∃ a, cvAvg env ctx n = some a ∧
          env.fit n ctx.X ctx.lengths = some m ∧
          ∀ n' ∈ nRange ctx, ∀ a', cvAvg env ctx n' = some a' → a' ≤ a) := by
  constructor
  · intro m hm
    unfold selectCV at hm
    rcases cvFold_prov env ctx (nRange ctx) (none, none) with h | ⟨n, hn, m', hm', hr⟩
    · rw [h] at hm; cases hm
    · rw [hr] at hm
      have hm0 : m' = m := Option.some.inj hm
      subst hm0
      exact ⟨n, hn, hm'⟩
  · intro H m hm
    unfold selectCV at hm
    rw [cvFold_eq_sweep env ctx (nRange ctx) (none, none) H] at hm
    rcases sweep_prov gtB
        ((nRange ctx).map fun n => (cvAvg env ctx n).bind fun a =>
          (env.fit n ctx.X ctx.lengths).map fun mm => (mm, a)) (none, none) with
      h | ⟨m0, v, hmem, hr⟩
    · rw [h] at hm; cases hm
    · rw [hr] at hm
      have hm0 : m0 = m := Option.some.inj hm
      subst hm0
      obtain ⟨n, hn, hcn⟩ := List.mem_map.mp hmem
      rw [Option.bind_eq_some] at hcn
      obtain ⟨a, ha, hmap⟩ := hcn
      rw [Option.map_eq_some'] at hmap
      obtain ⟨mm, hfit, heq⟩ := hmap
      injection heq with h1 h2
      subst h1
      subst h2
      refine ⟨n, hn, a, ha, hfit, ?_⟩
      intro n' hn' a' ha'
      have hf' : (env.fit n' ctx.X ctx.lengths).isSome := H n' hn' (by rw [ha']; rfl)
      cases hfit' : env.fit n' ctx.X ctx.lengths with
      | none => rw [hfit'] at hf'; cases hf'
      | some m'' =>
        have hmem' : some (m'', a') ∈
            (nRange ctx).map fun nn => (cvAvg env ctx nn).bind fun aa =>
              (env.fit nn ctx.X ctx.lengths).map fun mm => (mm, aa) :=
          List.mem_map.mpr ⟨n', hn', by rw [ha', hfit']; rfl⟩
        obtain ⟨b'', hb'', hfalse⟩ :=
          sweep_dom gtB gtB_trans gtB_irrefl _ (none, none) m'' a' hmem'
        rw [hr] at hb''
        have hvb : a = b'' := Option.some.inj hb''
        rw [hvb]
        simp only [gtB, decide_eq_false_iff_not] at hfalse
        exact le_of_not_lt hfalse

/-- Witness for C4: on the concrete oracle `envW` and context `ctxW` every
refit succeeds, and the returned model (the full-data fit at state count 3)
sits at the candidate with the highest fold average. -/
theorem selectCV_full_data_witness :
    ∃ n ∈ nRange ctxW, ∃ a, cvAvg envW ctxW n = some a ∧
      envW.fit n ctxW.X ctxW.lengths = some 3 ∧
      ∀ n' ∈ nRange ctxW, ∀ a', cvAvg envW ctxW n' = some a' → a' ≤ a :=
  (selectCV_full_data envW ctxW).2 (fun _ _ _ => rfl) 3 (by
    norm_num [selectCV, cvStep, cvAvg, kfold, foldLogL, combine_sequences, pyGtInit,
      nRange, envW, ctxW, List.range', List.range_succ, List.filter_cons, List.filter_nil,
      List.filterMap_cons, List.filterMap_nil, Function.comp, List.mapM, List.mapM.loop])

/-- Counterexample for C4: on the oracle `envR` the full-data refit raises
exactly at state count 3.  The candidate n = 3 has the strictly highest
fold average (31 against 21), yet the selector returns the stale model 22,
the full-data fit at n = 2: `best_cv` was overwritten before the refit
raised, so the returned model is not fitted at the winning state count. -/
theorem selectCV_refit_failure_cex :
    selectCV envR ctxW = some 22 ∧
    cvAvg envR ctxW 2 = some 21 ∧
    cvAvg envR ctxW 3 = some 31 ∧
    envR.fit 2 ctxW.X ctxW.lengths = some 22 ∧
    envR.fit 3 ctxW.X ctxW.lengths = none ∧
    (21 : ℚ) < 31 := by
  refine ⟨?_, ?_, ?_, by decide, by decide, by norm_num⟩ <;>
    norm_num [selectCV, cvStep, cvAvg, kfold, foldLogL, combine_sequences, pyGtInit,
      nRange, envR, ctxW, List.range', List.range_succ, List.filter_cons, List.filter_nil,
      List.filterMap_cons, List.filterMap_nil, Function.comp, List.mapM, List.mapM.loop]

/-- Claim C9: a word with exactly one sequence makes every SelectorCV
candidate fail (KFold(1) raises inside the per-candidate handler), so the
selection returns `none` whatever the candidate range and the oracle. -/
theorem selectCV_single_sequence {Mo : Type} (env : Numerics Mo) (ctx : SelCtx)
    (h : ctx.sequences.length = 1) : selectCV env ctx = none := by
  have havg : ∀ n, cvAvg env ctx n = none := by
    intro n
    simp only [cvAvg, h]
    rfl
  have hskip : ∀ n ∈ nRange ctx, ∀ t, cvStep env ctx t n = t := by
    intro n _ t
    unfold cvStep
    rw [havg n]
  unfold selectCV
  rw [foldl_id_of_skip (cvStep env ctx) (nRange ctx) (none, none) hskip]

/-- Witness for C9: the context `ctx9` has a single sequence, and the
selection returns `none` on the concrete oracle `envW`. -/
theorem selectCV_single_sequence_witness : selectCV envW ctx9 = none :=
  selectCV_single_sequence envW ctx9 (by decide)

/-- Claim C10: when the concatenated-feature map holds only the target
word (`M = len(hwords) = 1`), the DIC denominator `M - 1` is zero, the
division raises inside the per-candidate handler for every candidate, and
SelectorDIC returns `none` whatever the candidate range and the oracle. -/
theorem selectDIC_single_word {Mo : Type} (env : Numerics Mo) (ctx : SelCtx)
    (p : Mat × Lengths) (h : ctx.hwords = [(ctx.thisWord, p)]) :
    selectDIC env ctx = none := by
  have hc : ∀ n, dicCandidate env ctx n = none := by
    intro n
    unfold dicCandidate
    cases hf : env.fit n ctx.X ctx.lengths with
    | none => rfl
    | some model =>
      rw [Option.some_bind]
      cases hs : env.score model ctx.X ctx.lengths with
      | none => rfl
      | some logL =>
        rw [Option.some_bind]
        cases hsum : dicOtherSum env ctx model ctx.words 0 with
        | none => rfl
        | some s =>
          rw [Option.some_bind, h]
          rfl
  exact (sweepSelect_spec gtB gtB_trans gtB_irrefl (dicCandidate env ctx)
    (nRange ctx)).1 (fun n _ => hc n)

/-- Witness for C10: the context `ctx9` maps only the target word, and the
selection returns `none` on the concrete oracle `envW`. -/
theorem selectDIC_single_word_witness : selectDIC envW ctx9 = none :=
  selectDIC_single_word envW ctx9 ([[0]], [1]) (by decide)

/-- Claim C8 (amended): failures are recovered per candidate in the three
sweeping selectors and per (item, word) pair in recognition.  A candidate
state count whose body fails can be erased from the sweep without changing
the selection result, so one failing candidate never aborts the sweep; a
word whose scoring fails on an item is dropped from that item's table
without affecting the other words. -/
theorem failure_scope {Mo : Type} (env : Numerics Mo) (ctx : SelCtx) (n0 : Nat) :
    (n0 ∈ nRange ctx → bicCandidate env ctx n0 = none →
      selectBIC env ctx =
        (sweepRun ltB (((nRange ctx).erase n0).map (bicCandidate env ctx))).2) ∧
    (n0 ∈ nRange ctx → dicCandidate env ctx n0 = none →
      selectDIC env ctx =
        (sweepRun gtB (((nRange ctx).erase n0).map (dicCandidate env ctx))).2) ∧
    (n0 ∈ nRange ctx → cvAvg env ctx n0 = none →
      selectCV env ctx =
        (((nRange ctx).erase n0).foldl (cvStep env ctx) (none, none)).2) ∧
    (∀ w m rest item, env.score m item.1 item.2 = none →
      scoreItem env ((w, m) :: rest) item = scoreItem env rest item) := by
  refine ⟨?_, ?_, ?_, ?_⟩
  · intro hmem hc
    obtain ⟨l₁, l₂, hni, hl, he⟩ := List.exists_erase_eq hmem
    unfold selectBIC sweepRun
    rw [he, hl, List.map_append, List.map_cons, List.map_append]
    have hskip : ∀ t, sweepStep ltB t (bicCandidate env ctx n0) = t := by
      intro t; rw [hc]; rfl
    rw [foldl_middle_skip (sweepStep ltB) (bicCandidate env ctx n0) hskip]
  · intro hmem hc
    obtain ⟨l₁, l₂, hni, hl, he⟩ := List.exists_erase_eq hmem
    unfold selectDIC sweepRun
    rw [he, hl, List.map_append, List.map_cons, List.map_append]
    have hskip : ∀ t, sweepStep gtB t (dicCandidate env ctx n0) = t := by
      intro t; rw [hc]; rfl
    rw [foldl_middle_skip (sweepStep gtB) (dicCandidate env ctx n0) hskip]
  · intro hmem hc
    obtain ⟨l₁, l₂, hni, hl, he⟩ := List.exists_erase_eq hmem
    unfold selectCV
    rw [he, hl]
    have hskip : ∀ t, cvStep env ctx t n0 = t := by
      intro t; unfold cvStep; rw [hc]
    rw [foldl_middle_skip (cvStep env ctx) n0 hskip]
  · intro w m rest item h
    simp [scoreItem, h]

/-- Witness for C8: on the oracle `envF` the candidate 3 fails in all
three selectors (its fit raises) yet each selection equals the sweep with
3 erased, and the word "Z" (whose model 99 cannot score) drops out of the
item table without affecting the word "A". -/
theorem failure_scope_witness :
    (selectBIC envF ctxW =
      (sweepRun ltB (((nRange ctxW).erase 3).map (bicCandidate envF ctxW))).2) ∧
    (selectDIC envF ctxW =
      (sweepRun gtB (((nRange ctxW).erase 3).map (dicCandidate envF ctxW))).2) ∧
    (selectCV envF ctxW =
      (((nRange ctxW).erase 3).foldl (cvStep envF ctxW) (none, none)).2) ∧
    (scoreItem envF [("Z", 99), ("A", 2)] ([[0]], [1]) =
      scoreItem envF [("A", 2)] ([[0]], [1])) :=
  ⟨(failure_scope envF ctxW 3).1 (by decide) (by decide),
   (failure_scope envF ctxW 3).2.1 (by decide) (by decide),
   (failure_scope envF ctxW 3).2.2.1 (by decide) (by decide),
   (failure_scope envF ctxW 3).2.2.2 "Z" 99 [("A", 2)] ([[0]], [1]) (by decide)⟩

/-- Counterexample for C8: recovery in SelectorCV is per candidate, not
per fold.  On the oracle `env8` and context `ctx8` (three sequences, the
single candidate n = 2), the first and last folds score successfully and
the full-data fit succeeds, yet the middle fold's fit failure discards the
whole candidate — its average is `none` and the selection returns `none`,
so the other folds' contributions for that candidate are lost. -/
theorem cv_fold_failure_cex :
    kfold 3 3 = some [([1, 2], [0]), ([0, 2], [1]), ([0, 1], [2])] ∧
    foldLogL env8 ctx8 2 ([1, 2], [0]) = some 2 ∧
    foldLogL env8 ctx8 2 ([0, 2], [1]) = none ∧
    foldLogL env8 ctx8 2 ([0, 1], [2]) = some 2 ∧
    env8.fit 2 ctx8.X ctx8.lengths = some 2 ∧
    cvAvg env8 ctx8 2 = none ∧
    selectCV env8 ctx8 = none := by
  decide

/-- Folding the Python `max` comparison from a running maximum yields an
element of the table (or the start), at least as large as the start and as
every table entry. -/
theorem pyMaxFold_spec :
    ∀ (p : List (String × ℚ)) (b : String × ℚ),
      ∃ b', p.foldl pyMaxStep (some b) = some b' ∧ (b' = b ∨ b' ∈ p) ∧
        b.2 ≤ b'.2 ∧ ∀ kv ∈ p, kv.2 ≤ b'.2 := by
  intro p
  induction p with
  | nil =>
    intro b
    exact ⟨b, rfl, Or.inl rfl, le_refl _, fun kv h => absurd h (List.not_mem_nil _)⟩
  | cons kv p ih =>
    intro b
    rw [List.foldl_cons]
    by_cases h : b.2 < kv.2
    · have hstep : pyMaxStep (some b) kv = some kv := by simp [pyMaxStep, h]
      rw [hstep]
      obtain ⟨b', hf, hmem, hle, hall⟩ := ih kv
      refine ⟨b', hf, ?_, le_of_lt (lt_of_lt_of_le h hle), ?_⟩
      · rcases hmem with rfl | hm
        · exact Or.inr (List.mem_cons_self _ _)
        · exact Or.inr (List.mem_cons_of_mem _ hm)
      · intro kv' hkv'
        rcases List.mem_cons.mp hkv' with h' | h'
        · subst h'; exact hle
        · exact hall kv' h'
    · have hstep : pyMaxStep (some b) kv = some b := by simp [pyMaxStep, h]
      rw [hstep]
      obtain ⟨b', hf, hmem, hle, hall⟩ := ih b
      refine ⟨b', hf, ?_, hle, ?_⟩
      · rcases hmem with rfl | hm
        · exact Or.inl rfl
        · exact Or.inr (List.mem_cons_of_mem _ hm)
      · intro kv' hkv'
        rcases List.mem_cons.mp hkv' with h' | h'
        · subst h'; exact le_trans (le_of_not_lt h) hle
        · exact hall kv' h'

/-- The word Python `max` picks from a non-empty likelihood table carries
a log-likelihood at least as large as every entry of the table. -/
theorem pyMaxAssoc_argmax (p : List (String × ℚ)) (w : String) :
    pyMaxAssoc p = some w →
    ∃ v, (w, v) ∈ p ∧ ∀ kv ∈ p, kv.2 ≤ v := by
  intro h
  cases p with
  | nil => cases h
  | cons kv p =>
    unfold pyMaxAssoc at h
    rw [List.foldl_cons] at h
    have hstep : pyMaxStep none kv = some kv := rfl
    rw [hstep] at h
    obtain ⟨b', hf, hmem, hle, hall⟩ := pyMaxFold_spec p kv
    rw [hf] at h
    have hw : b'.1 = w := by simpa using h
    refine ⟨b'.2, ?_, ?_⟩
    · have hpair : (w, b'.2) = b' := by rw [← hw]
      rw [hpair]
      rcases hmem with rfl | hm
      · exact List.mem_cons_self _ _
      · exact List.mem_cons_of_mem _ hm
    · intro kv' hkv'
      rcases List.mem_cons.mp hkv' with h' | h'
      · subst h'; exact hle
      · exact hall kv' h'

/-- The guess comprehension succeeds exactly by producing, position by
position, the Python `max` of each table. -/
theorem guessesOf_forall2 :
    ∀ (ps : List (List (String × ℚ))) (gs : List String),
      guessesOf ps = some gs →
      List.Forall₂ (fun p g => pyMaxAssoc p = some g) ps gs := by
  intro ps
  induction ps with
  | nil =>
    intro gs h
    have hg : ([] : List String) = gs := by simpa [guessesOf] using h
    rw [← hg]
    exact List.Forall₂.nil
  | cons p ps ih =>
    intro gs h
    unfold guessesOf at h
    cases hmax : pyMaxAssoc p with
    | none => rw [hmax] at h; cases h
    | some g =>
      cases hrec : guessesOf ps with
      | none => rw [hmax, hrec] at h; cases h
      | some gs' =>
        rw [hmax, hrec] at h
        have hg : g :: gs' = gs := by simpa using h
        rw [← hg]
        exact List.Forall₂.cons hmax (ih gs' hrec)

/-- Claim C5 (amended): whenever `recognize` completes without raising,
its two outputs have length equal to the number of test items, the i-th
table is exactly the in-order successful scores of the i-th item (words
whose scoring failed are silently omitted), and position by position the
guess is a word of the table whose log-likelihood is at least that of
every entry.  (When some item's table is empty the call raises instead of
returning.) -/
theorem recognize_spec {Mo : Type} (env : Numerics Mo)
    (models : List (String × Mo)) (testSet : List (Mat × Lengths)) :
    ∀ probs guesses, recognize env models testSet = some (probs, guesses) →
      probs.length = testSet.length ∧ guesses.length = testSet.length ∧
      probs = testSet.map (scoreItem env models) ∧
      List.Forall₂ (fun p g => ∃ v, (g, v) ∈ p ∧ ∀ kv ∈ p, kv.2 ≤ v)
        probs guesses := by
  intro probs guesses h
  simp only [recognize] at h
  cases hg : guessesOf (testSet.map (scoreItem env models)) with
  | none => rw [hg] at h; cases h
  | some gs =>
    rw [hg] at h
    have h' : (testSet.map (scoreItem env models), gs) = (probs, guesses) :=
      Option.some.inj h
    injection h' with hp hgs
    subst hp
    subst hgs
    have hf2 := guessesOf_forall2 _ gs hg
    refine ⟨List.length_map _ _, ?_, rfl, ?_⟩
    · rw [← hf2.length_eq]
      exact List.length_map _ _
    · exact hf2.imp fun p g hpg => pyMaxAssoc_argmax p g hpg

/-- Witness for C5: concrete run on `envW` with two word models and one
test item, table `[("A",5),("B",7)]`, guess "B". -/
theorem recognize_spec_witness :
    probsW.length = testW.length ∧ guessesW.length = testW.length ∧
    probsW = testW.map (scoreItem envW modelsW) ∧
    List.Forall₂ (fun p g => ∃ v, (g, v) ∈ p ∧ ∀ kv ∈ p, kv.2 ≤ v)
      probsW guessesW :=
  recognize_spec envW modelsW testW probsW guessesW (by decide)

/-- Counterexample for C5: with the oracle `env5` every model's scoring
fails on the second test item; `recognize` then raises (result `none`) and
returns no lists at all, even though the first item scored fine — the
claim's unconditional "returns two lists of length = number of items" is
false on the code. -/
theorem recognize_empty_item_cex :
    scoreItem env5 [("A", 5), ("B", 7)] ([[0]], [1]) = [("A", 5), ("B", 7)] ∧
    scoreItem env5 [("A", 5), ("B", 7)] ([[5]], [1]) = [] ∧
    recognize env5 [("A", 5), ("B", 7)] [([[0]], [1]), ([[5]], [1])] = none := by
  decide

/-- Claim C1 (code_bug): a test item whose likelihood table ends up empty
does not get a sentinel guess — the Python `max` raises an uncaught
`ValueError` and `recognize` aborts (embedded as result `none`), against
the spec's mandated deterministic fallback. -/
theorem recognize_empty_table_crash :
    scoreItem env1 [("A", 5)] ([[0]], [1]) = [] ∧
    recognize env1 [("A", 5)] [([[0]], [1])] = none :=
  ⟨rfl, rfl⟩

/-- Claim C7 (code_bug): because SelectorBIC builds its GaussianHMM without
`random_state` (line 88), the fit draws from the global numpy generator;
two successive `select()` calls on identical inputs and identical
configured seed start from different generator states and return different
models (`some 0` then `some 2` on the explicit-generator oracle `envG`). -/
theorem selectBIC_rng_two_calls_differ :
    (selectBIC_g envG ctxW 0).1 = some 0 ∧
    (selectBIC_g envG ctxW (selectBIC_g envG ctxW 0).2).1 = some 2 ∧
    (selectBIC_g envG ctxW 0).1 ≠ (selectBIC_g envG ctxW (selectBIC_g envG ctxW 0).2).1 := by
  refine ⟨?_, ?_, ?_⟩
  · norm_num [selectBIC_g, bicStepG, sweepStep, nRange, envG, ctxW, ltB, List.range']
  · norm_num [selectBIC_g, bicStepG, sweepStep, nRange, envG, ctxW, ltB, List.range']
  · intro hcontra
    have h1 : (selectBIC_g envG ctxW 0).1 = some 0 := by
      norm_num [selectBIC_g, bicStepG, sweepStep, nRange, envG, ctxW, ltB, List.range']
    have h2 : (selectBIC_g envG ctxW (selectBIC_g envG ctxW 0).2).1 = some 2 := by
      norm_num [selectBIC_g, bicStepG, sweepStep, nRange, envG, ctxW, ltB, List.range']
    rw [h1, h2] at hcontra
    cases hcontra
